import Mathlib

/-!
Shallow embedding of the opustags core (src/opustags.h and its spec).

The repository under study ships the interface header src/opustags.h and the
test file t/ogg.cc. The bodies of parse_tags, render_tags, delete_tags and of
the Ogg reader and writer are not part of the sources given, so those
operations are modelled from the specification, as indicated on each
definition. Byte strings are modelled as lists of natural numbers; 32-bit
little-endian fields are encoded and decoded explicitly.
-/

namespace ot

/-- The status enumeration, transcribed from src/opustags.h lines 28-51. -/
inductive status where
  | ok
  | exit_now
  | bad_arguments
  | int_overflow
  | standard_error
  | end_of_file
  | libogg_error
  | bad_identification_header
  | bad_magic_number
  | overflowing_magic_number
  | overflowing_vendor_length
  | overflowing_vendor_data
  | overflowing_comment_count
  | overflowing_comment_length
  | overflowing_comment_data
  | sentinel
  deriving DecidableEq, Repr

/-- All members of the status enumeration, in declaration order. -/
def status_values : List status :=
  [.ok, .exit_now, .bad_arguments, .int_overflow, .standard_error,
   .end_of_file, .libogg_error, .bad_identification_header,
   .bad_magic_number, .overflowing_magic_number, .overflowing_vendor_length,
   .overflowing_vendor_data, .overflowing_comment_count,
   .overflowing_comment_length, .overflowing_comment_data, .sentinel]

/-- Largest value representable in an unsigned 32-bit field. -/
def u32max : Nat := 4294967295

/-- Little-endian encoding of a 32-bit unsigned integer, as in the
OpusTags binary layout (spec section 4.3). -/
def le32_encode (n : Nat) : List Nat :=
  [n % 256, n / 256 % 256, n / 65536 % 256, n / 16777216 % 256]

/-- Little-endian decoding of a 32-bit unsigned integer from the first four
bytes of a list. -/
def le32_decode (l : List Nat) : Nat :=
  match l with
  | b0 :: b1 :: b2 :: b3 :: _ => b0 + 256 * b1 + 65536 * b2 + 16777216 * b3
  | _ => 0

/-- The 8-byte OpusTags magic, the ASCII bytes of the string OpusTags. -/
def tags_magic : List Nat := [79, 112, 117, 115, 84, 97, 103, 115]

/-- The opus_tags structure from src/opustags.h lines 173-199: a vendor
string, an ordered list of comments, and trailing opaque extra data. -/
structure opus_tags where
  vendor : List Nat
  comments : List (List Nat)
  extra_data : List Nat
  deriving DecidableEq, Repr

/-- Modelled from the spec: the per-comment loop of parse_tags (spec section
4.3, steps 4 and 5; the implementation body is not among the given sources).
Reads the requested number of comments, each a 4-byte little-endian length
followed by that many payload bytes; whatever bytes remain afterwards are the
trailing extra data. A missing length field is overflowing_comment_length and
a missing payload is overflowing_comment_data. -/
def parse_comments (data : List Nat) : Nat → Except status (List (List Nat) × List Nat)
  | 0 => .ok ([], data)
  | count + 1 =>
    if data.length < 4 then
      .error .overflowing_comment_length
    else
      let len := le32_decode (data.take 4)
      if data.length < 4 + len then
        .error .overflowing_comment_data
      else
        match parse_comments ((data.drop 4).drop len) count with
        | .error e => .error e
        | .ok (comments, extra) => .ok (((data.drop 4).take len) :: comments, extra)

/-- Modelled from the spec: parse_tags (declared at src/opustags.h line 207;
the implementation body is not among the given sources). Decodes the OpusTags
packet following the check order of spec section 4.3: a present but wrong
magic is bad_magic_number; too few bytes for the magic or the vendor-length
field is overflowing_magic_number; then vendor data, comment count and each
comment are checked in order. -/
def parse_tags (data : List Nat) : Except status opus_tags :=
  if data.length ≥ 8 ∧ data.take 8 ≠ tags_magic then
    .error .bad_magic_number
  else if data.length < 12 then
    .error .overflowing_magic_number
  else
    let vendor_length := le32_decode ((data.drop 8).take 4)
    if data.length < 12 + vendor_length then
      .error .overflowing_vendor_data
    else
      if data.length < 12 + vendor_length + 4 then
        .error .overflowing_comment_count
      else
        let count := le32_decode ((data.drop (12 + vendor_length)).take 4)
        match parse_comments (data.drop (12 + vendor_length + 4)) count with
        | .error e => .error e
        | .ok (comments, extra) =>
          .ok ⟨(data.drop 12).take vendor_length, comments, extra⟩

/-- Encoding of a single comment: 4-byte length then payload. -/
def render_comment (c : List Nat) : List Nat :=
  le32_encode c.length ++ c

/-- Encoding of the whole comment list, in order. -/
def render_comments (cs : List (List Nat)) : List Nat :=
  (cs.map render_comment).flatten

/-- Total encoded size of an OpusTags packet: magic (8), vendor length field
(4), vendor bytes, comment count field (4), per comment a length field (4)
plus payload, then the extra data. -/
def encoded_size (t : opus_tags) : Nat :=
  16 + t.vendor.length + ((t.comments.map (fun c => 4 + c.length)).sum) + t.extra_data.length

/-- Modelled from the spec: render_tags (declared at src/opustags.h line 208;
the implementation body is not among the given sources). Encodes magic,
vendor, comment count, comments in order, then appends the extra data
unconditionally; fails with int_overflow when the vendor length, the comment
count, any comment length or the total encoded size exceeds the unsigned
32-bit range, producing no output in that case. -/
def render_tags (t : opus_tags) : Except status (List Nat) :=
  if t.vendor.length > u32max ∨ t.comments.length > u32max
      ∨ (∃ c ∈ t.comments, c.length > u32max) ∨ encoded_size t > u32max then
    .error .int_overflow
  else
    .ok (tags_magic ++ le32_encode t.vendor.length ++ t.vendor
         ++ le32_encode t.comments.length ++ render_comments t.comments ++ t.extra_data)

/-- ASCII upper-casing of one byte, for case-insensitive key comparison. -/
def ascii_upper (b : Nat) : Nat :=
  if 97 ≤ b ∧ b ≤ 122 then b - 32 else b

/-- The substring of a comment before its first equals sign (byte 61). -/
def comment_key (c : List Nat) : List Nat :=
  c.takeWhile (fun b => b != 61)

/-- Whether a comment matches a key: it contains an equals sign and the
substring before the first equals sign equals the key up to ASCII case. -/
def comment_matches (c key : List Nat) : Bool :=
  c.contains 61 && ((comment_key c).map ascii_upper == key.map ascii_upper)

/-- Modelled from the spec: delete_tags (declared at src/opustags.h line 209;
the implementation body is not among the given sources). Removes every
comment whose key matches the given field under ASCII case-insensitive
comparison; comments without an equals sign are never matched. -/
def delete_tags (t : opus_tags) (key : List Nat) : opus_tags :=
  { t with comments := t.comments.filter (fun c => ! comment_matches c key) }

/-- An in-memory edit applied to a decoded opus_tags before re-encoding:
either appending a new comment or deleting by key (spec section 4.4). -/
inductive tags_edit where
  | add (c : List Nat)
  | del (key : List Nat)

/-- Apply one edit to a decoded opus_tags. Adding appends the comment at the
end of the list; deleting uses delete_tags. -/
def apply_edit (t : opus_tags) : tags_edit → opus_tags
  | .add c => { t with comments := t.comments ++ [c] }
  | .del key => delete_tags t key

/-- Apply a sequence of edits in order. -/
def apply_edits (t : opus_tags) (es : List tags_edit) : opus_tags :=
  es.foldl apply_edit t

/-- The 8-byte OpusHead magic, the ASCII bytes of the string OpusHead. -/
def head_magic : List Nat := [79, 112, 117, 115, 72, 101, 97, 100]

/-- Modelled from the spec: validate_identification_header (declared at
src/opustags.h line 205; the implementation body is not among the given
sources). Structural check of the fixed-layout 19-byte OpusHead packet:
magic and version byte at fixed positions; any mismatch or short packet is
bad_identification_header. -/
def validate_identification_header (data : List Nat) : status :=
  if data.length < 19 then .bad_identification_header
  else if data.take 8 ≠ head_magic then .bad_identification_header
  else if data.get? 8 ≠ some 1 then .bad_identification_header
  else .ok

/-- Modelled from the spec: an Ogg page as handled by the reader and writer
(spec sections 3 and 6), reduced to the fields the header path uses: serial
number, page sequence number, end-of-stream flag, and the packets carried by
the page payload. -/
structure ogg_page_m where
  serial : Nat
  sequence : Nat
  eos : Bool
  packets : List (List Nat)
  deriving DecidableEq, Repr

/-- Modelled from the spec: the reader state of ogg_reader (declared at
src/opustags.h lines 70-132; the implementation body is not among the given
sources): the pages still to be read from the source, and the current page
exposed by the last successful read_page, if any. -/
structure ogg_reader_m where
  pages : List ogg_page_m
  page : Option ogg_page_m
  deriving DecidableEq, Repr

/-- Modelled from the spec: read_page (declared at src/opustags.h line 90;
the implementation body is not among the given sources). Pulls the next page
from the source and exposes it as the current page; fails with end_of_file
exactly when the source is exhausted. -/
def read_page (r : ogg_reader_m) : status × ogg_reader_m :=
  match r.pages with
  | [] => (.end_of_file, r)
  | p :: rest => (.ok, ⟨rest, some p⟩)

/-- Modelled from the spec: read_header_packet (used at t/ogg.cc lines 17-32;
its declaration and body are not among the given sources). Extracts the next
packet from the current page and hands it to the caller-supplied inspection
step, propagating whatever status the inspection returns; when no packet can
be extracted the result is libogg_error. -/
def read_header_packet (r : ogg_reader_m) (inspector : List Nat → status) : status :=
  match r.page with
  | none => .libogg_error
  | some pg =>
    match pg.packets with
    | [] => .libogg_error
    | pkt :: _ => inspector pkt

/-- Modelled from the spec: write_header_packet (used at t/ogg.cc lines
75-78; its declaration and body are not among the given sources). Wraps the
packet in a page of its own, carrying the given serial and sequence numbers,
flushed so that it is never coalesced with another packet, and appends it to
the output page stream. -/
def write_header_packet (out : List ogg_page_m) (serial seq : Nat)
    (pkt : List Nat) : List ogg_page_m :=
  out ++ [⟨serial, seq, false, [pkt]⟩]

/-- The core operations named by the error-handling design (spec section 7)
whose outcome-reporting mechanism is fixed by src/opustags.h where declared
there. -/
inductive core_op where
  | read_page_op
  | write_page_op
  | read_header_packet_op
  | write_header_packet_op
  | parse_tags_op
  | render_tags_op
  | delete_tags_op
  | validate_identification_op
  deriving DecidableEq, Repr

/-- How each operation reports its outcome. -/
inductive ret_kind where
  | status_ret
  | int_ret
  | void_ret
  deriving DecidableEq, Repr

/-- Return kinds of the core operations, transcribed from src/opustags.h:
read_page returns status (line 90), write_page returns int (line 159),
validate_identification_header returns status (line 205), parse_tags returns
status (line 207), render_tags returns int (line 208), delete_tags returns
void (line 209). read_header_packet and write_header_packet are not declared
in the given header; modelled from the spec, which has them return a status
(spec sections 4.1 and 4.2). -/
def declared_return : core_op → ret_kind
  | .read_page_op => .status_ret
  | .write_page_op => .int_ret
  | .read_header_packet_op => .status_ret
  | .write_header_packet_op => .status_ret
  | .parse_tags_op => .status_ret
  | .render_tags_op => .int_ret
  | .delete_tags_op => .void_ret
  | .validate_identification_op => .status_ret

/-! ### Helper lemmas -/

theorem le32_encode_length (n : Nat) : (le32_encode n).length = 4 := rfl

theorem le32_decode_encode (n : Nat) (h : n ≤ u32max) :
    le32_decode (le32_encode n) = n := by
  simp only [le32_encode, le32_decode, u32max] at *
  omega

theorem le32_decode_encode_append (n : Nat) (h : n ≤ u32max) (rest : List Nat) :
    le32_decode (le32_encode n ++ rest) = n := by
  simp only [le32_encode, le32_decode, List.cons_append, List.nil_append, u32max] at *
  omega

theorem take_exact (a b : List Nat) (n : Nat) (h : a.length = n) :
    (a ++ b).take n = a := by
  subst h
  induction a with
  | nil => simp
  | cons x xs ih => simp [ih]

theorem drop_exact (a b : List Nat) (n : Nat) (h : a.length = n) :
    (a ++ b).drop n = b := by
  subst h
  induction a with
  | nil => simp
  | cons x xs ih => simp [ih]

theorem parse_comments_step (c rest : List Nat) (count : Nat)
    (hc : c.length ≤ u32max) :
    parse_comments (render_comment c ++ rest) (count + 1)
      = match parse_comments rest count with
        | .error e => .error e
        | .ok (comments, extra) => .ok (c :: comments, extra) := by
  have hdata : render_comment c ++ rest = le32_encode c.length ++ (c ++ rest) := by
    simp [render_comment]
  have h1 : (le32_encode c.length ++ (c ++ rest)).take 4 = le32_encode c.length :=
    take_exact _ _ 4 (le32_encode_length c.length)
  have h2 : (le32_encode c.length ++ (c ++ rest)).drop 4 = c ++ rest :=
    drop_exact _ _ 4 (le32_encode_length c.length)
  have h3 : (c ++ rest).take c.length = c := take_exact _ _ _ rfl
  have h4 : (c ++ rest).drop c.length = rest := drop_exact _ _ _ rfl
  have hlen : (le32_encode c.length ++ (c ++ rest)).length = 4 + c.length + rest.length := by
    simp [le32_encode]
    omega
  rw [hdata]
  simp only [parse_comments, h1, h2, h3, h4, le32_decode_encode c.length hc, hlen]
  rw [if_neg (by omega), if_neg (by omega)]

theorem parse_comments_render (cs : List (List Nat)) (extra : List Nat)
    (h : ∀ c ∈ cs, c.length ≤ u32max) :
    parse_comments (render_comments cs ++ extra) cs.length = .ok (cs, extra) := by
  induction cs with
  | nil => simp [render_comments, parse_comments]
  | cons c cs ih =>
    have hc : c.length ≤ u32max := h c (List.mem_cons_self c cs)
    have hsplit : render_comments (c :: cs) ++ extra
        = render_comment c ++ (render_comments cs ++ extra) := by
      simp [render_comments]
    rw [List.length_cons, hsplit, parse_comments_step c _ cs.length hc,
        ih (fun x hx => h x (List.mem_cons_of_mem c hx))]

theorem parse_tags_render (t : opus_tags)
    (hv : t.vendor.length ≤ u32max) (hn : t.comments.length ≤ u32max)
    (hc : ∀ c ∈ t.comments, c.length ≤ u32max) :
    parse_tags (tags_magic ++ (le32_encode t.vendor.length ++ (t.vendor
      ++ (le32_encode t.comments.length ++ (render_comments t.comments
      ++ t.extra_data))))) = .ok t := by
  have hm : tags_magic.length = 8 := rfl
  have hb1 : (tags_magic ++ (le32_encode t.vendor.length ++ (t.vendor
      ++ (le32_encode t.comments.length ++ (render_comments t.comments
      ++ t.extra_data))))).take 8 = tags_magic :=
    take_exact _ _ 8 hm
  have hb8 : (tags_magic ++ (le32_encode t.vendor.length ++ (t.vendor
      ++ (le32_encode t.comments.length ++ (render_comments t.comments
      ++ t.extra_data))))).drop 8
      = le32_encode t.vendor.length ++ (t.vendor
        ++ (le32_encode t.comments.length ++ (render_comments t.comments
        ++ t.extra_data))) :=
    drop_exact _ _ 8 hm
  have hb8t : (le32_encode t.vendor.length ++ (t.vendor
      ++ (le32_encode t.comments.length ++ (render_comments t.comments
      ++ t.extra_data)))).take 4 = le32_encode t.vendor.length :=
    take_exact _ _ 4 (le32_encode_length _)
  have hassoc12 : tags_magic ++ (le32_encode t.vendor.length ++ (t.vendor
      ++ (le32_encode t.comments.length ++ (render_comments t.comments
      ++ t.extra_data))))
      = (tags_magic ++ le32_encode t.vendor.length)
        ++ (t.vendor ++ (le32_encode t.comments.length
          ++ (render_comments t.comments ++ t.extra_data))) := by
    simp [List.append_assoc]
  have h12len : (tags_magic ++ le32_encode t.vendor.length).length = 12 := by
    rw [List.length_append, hm, le32_encode_length]
  have hb12 : (tags_magic ++ (le32_encode t.vendor.length ++ (t.vendor
      ++ (le32_encode t.comments.length ++ (render_comments t.comments
      ++ t.extra_data))))).drop 12
      = t.vendor ++ (le32_encode t.comments.length
        ++ (render_comments t.comments ++ t.extra_data)) := by
    rw [hassoc12]
    exact drop_exact _ _ 12 h12len
  have hb12t : (t.vendor ++ (le32_encode t.comments.length
      ++ (render_comments t.comments ++ t.extra_data))).take t.vendor.length
      = t.vendor :=
    take_exact _ _ _ rfl
  have hassocL : tags_magic ++ (le32_encode t.vendor.length ++ (t.vendor
      ++ (le32_encode t.comments.length ++ (render_comments t.comments
      ++ t.extra_data))))
      = ((tags_magic ++ le32_encode t.vendor.length) ++ t.vendor)
        ++ (le32_encode t.comments.length
          ++ (render_comments t.comments ++ t.extra_data)) := by
    simp [List.append_assoc]
  have hLlen : ((tags_magic ++ le32_encode t.vendor.length) ++ t.vendor).length
      = 12 + t.vendor.length := by
    rw [List.length_append, h12len]
  have hbL : (tags_magic ++ (le32_encode t.vendor.length ++ (t.vendor
      ++ (le32_encode t.comments.length ++ (render_comments t.comments
      ++ t.extra_data))))).drop (12 + t.vendor.length)
      = le32_encode t.comments.length
        ++ (render_comments t.comments ++ t.extra_data) := by
    rw [hassocL]
    exact drop_exact _ _ _ hLlen
  have hbLt : (le32_encode t.comments.length
      ++ (render_comments t.comments ++ t.extra_data)).take 4
      = le32_encode t.comments.length :=
    take_exact _ _ 4 (le32_encode_length _)
  have hassocB : tags_magic ++ (le32_encode t.vendor.length ++ (t.vendor
      ++ (le32_encode t.comments.length ++ (render_comments t.comments
      ++ t.extra_data))))
      = (((tags_magic ++ le32_encode t.vendor.length) ++ t.vendor)
          ++ le32_encode t.comments.length)
        ++ (render_comments t.comments ++ t.extra_data) := by
    simp [List.append_assoc]
  have hBlen : ((((tags_magic ++ le32_encode t.vendor.length) ++ t.vendor)
      ++ le32_encode t.comments.length)).length = 12 + t.vendor.length + 4 := by
    rw [List.length_append, hLlen, le32_encode_length]
  have hbB : (tags_magic ++ (le32_encode t.vendor.length ++ (t.vendor
      ++ (le32_encode t.comments.length ++ (render_comments t.comments
      ++ t.extra_data))))).drop (12 + t.vendor.length + 4)
      = render_comments t.comments ++ t.extra_data := by
    rw [hassocB]
    exact drop_exact _ _ _ hBlen
  have hlen : (tags_magic ++ (le32_encode t.vendor.length ++ (t.vendor
      ++ (le32_encode t.comments.length ++ (render_comments t.comments
      ++ t.extra_data))))).length
      = 16 + t.vendor.length + (render_comments t.comments).length
        + t.extra_data.length := by
    simp only [List.length_append, hm, le32_encode_length]
    omega
  have hPC : parse_comments (render_comments t.comments ++ t.extra_data)
      t.comments.length = .ok (t.comments, t.extra_data) :=
    parse_comments_render t.comments t.extra_data hc
  simp only [parse_tags, hb8, hb8t, le32_decode_encode t.vendor.length hv,
    hbL, hbLt, le32_decode_encode t.comments.length hn, hbB, hPC, hb12, hb12t]
  rw [if_neg (fun h => h.2 hb1), if_neg (by omega), if_neg (by omega),
    if_neg (by omega)]

/-- A header whose individual fields all fit 32 bits but whose total encoded
size does not: the vendor string alone is as long as the largest 32-bit
value, so the magic and length fields push the packet past the range. -/
def big_header : opus_tags := ⟨List.replicate u32max 0, [], []⟩

/-- A small concrete header used to instantiate the roundtrip theorem. -/
def ex_header : opus_tags := ⟨[65, 66], [[84, 73, 84, 76, 69, 61, 120]], [0, 1]⟩

theorem encoded_size_vendor_only (v : List Nat) :
    encoded_size ⟨v, [], []⟩ = 16 + v.length := by
  simp [encoded_size]

/-- C1 counterexample: the claim as stated is false. The header big_header
satisfies every bound the claim requires (vendor length, comment count,
comment and extra-data lengths all fit 32 bits), yet render_tags rejects it
with int_overflow because the total encoded size exceeds the 32-bit range,
so no rendered bytes exist for parse to reproduce it from. -/
theorem C1_roundtrip_counterexample :
    big_header.vendor.length ≤ u32max ∧ big_header.comments.length ≤ u32max ∧
    (∀ c ∈ big_header.comments, c.length ≤ u32max) ∧
    big_header.extra_data.length ≤ u32max ∧
    ¬ ∃ bs, render_tags big_header = .ok bs ∧ parse_tags bs = .ok big_header := by
  have hv : big_header.vendor.length = u32max := by
    show (List.replicate u32max 0).length = u32max
    rw [List.length_replicate]
  have hsz : encoded_size big_header = 16 + u32max := by
    rw [show big_header = ⟨List.replicate u32max 0, [], []⟩ from rfl]
    rw [encoded_size_vendor_only, List.length_replicate]
  have hcond : big_header.vendor.length > u32max ∨ big_header.comments.length > u32max
      ∨ (∃ c ∈ big_header.comments, c.length > u32max)
      ∨ encoded_size big_header > u32max := by
    right; right; right
    rw [hsz]
    omega
  have hover : render_tags big_header = .error .int_overflow := by
    simp only [render_tags]
    rw [if_pos hcond]
  refine ⟨le_of_eq hv, Nat.zero_le _, ?_, Nat.zero_le _, ?_⟩
  · intro c hcm
    exact absurd hcm (List.not_mem_nil c)
  · rintro ⟨bs, hok, -⟩
    rw [hover] at hok
    exact Except.noConfusion hok

/-- C1 (amended): for every CommentHeader whose vendor length, comment
count, comment and extra-data lengths, and total encoded size all fit the
unsigned 32-bit range, rendering succeeds and parsing the rendered bytes
yields the identical CommentHeader. -/
theorem C1_parse_render_roundtrip (t : opus_tags)
    (hv : t.vendor.length ≤ u32max) (hn : t.comments.length ≤ u32max)
    (hc : ∀ c ∈ t.comments, c.length ≤ u32max) (_hx : t.extra_data.length ≤ u32max)
    (hs : encoded_size t ≤ u32max) :
    ∃ bs, render_tags t = .ok bs ∧ parse_tags bs = .ok t := by
  have hnov : ¬ (t.vendor.length > u32max ∨ t.comments.length > u32max
      ∨ (∃ c ∈ t.comments, c.length > u32max) ∨ encoded_size t > u32max) := by
    rintro (h | h | ⟨c, hcm, hcl⟩ | h)
    · omega
    · omega
    · exact absurd hcl (by have := hc c hcm; omega)
    · omega
  refine ⟨tags_magic ++ le32_encode t.vendor.length ++ t.vendor
    ++ le32_encode t.comments.length ++ render_comments t.comments
    ++ t.extra_data, ?_, ?_⟩
  · simp only [render_tags]
    rw [if_neg hnov]
  · have hre : tags_magic ++ le32_encode t.vendor.length ++ t.vendor
        ++ le32_encode t.comments.length ++ render_comments t.comments
        ++ t.extra_data
        = tags_magic ++ (le32_encode t.vendor.length ++ (t.vendor
          ++ (le32_encode t.comments.length ++ (render_comments t.comments
          ++ t.extra_data)))) := by
      simp [List.append_assoc]
    rw [hre]
    exact parse_tags_render t hv hn hc

/-- C1 witness: the roundtrip theorem applied to a small concrete header. -/
theorem C1_roundtrip_witness :
    ∃ bs, render_tags ex_header = .ok bs ∧ parse_tags bs = .ok ex_header :=
  C1_parse_render_roundtrip ex_header (by decide) (by decide) (by decide)
    (by decide) (by decide)

theorem parse_comments_error_cases (count : Nat) :
    ∀ (data : List Nat) (e : status), parse_comments data count = .error e →
      e = .overflowing_comment_length ∨ e = .overflowing_comment_data := by
  induction count with
  | zero =>
    intro data e h
    simp [parse_comments] at h
  | succ n ih =>
    intro data e h
    simp only [parse_comments] at h
    split at h
    · injection h with h2
      exact Or.inl h2.symm
    · split at h
      · injection h with h2
        exact Or.inr h2.symm
      · split at h
        next e1 heq =>
          injection h with h2
          exact h2 ▸ ih _ e1 heq
        next pr heq =>
          exact Except.noConfusion h

theorem parse_tags_error_cases (data : List Nat) (e : status)
    (h : parse_tags data = .error e) :
    e = .bad_magic_number ∨ e = .overflowing_magic_number
      ∨ e = .overflowing_vendor_data ∨ e = .overflowing_comment_count
      ∨ e = .overflowing_comment_length ∨ e = .overflowing_comment_data := by
  simp only [parse_tags] at h
  split at h
  · injection h with h2
    exact Or.inl h2.symm
  · split at h
    · injection h with h2
      exact Or.inr (Or.inl h2.symm)
    · split at h
      · injection h with h2
        exact Or.inr (Or.inr (Or.inl h2.symm))
      · split at h
        · injection h with h2
          exact Or.inr (Or.inr (Or.inr (Or.inl h2.symm)))
        · split at h
          next e1 heq =>
            injection h with h2
            rcases parse_comments_error_cases _ _ e1 heq with h3 | h3
            · exact Or.inr (Or.inr (Or.inr (Or.inr (Or.inl (h2 ▸ h3)))))
            · exact Or.inr (Or.inr (Or.inr (Or.inr (Or.inr (h2 ▸ h3)))))
          next pr heq =>
            exact Except.noConfusion h

/-- C2: parse_tags performs its checks in one fixed order and returns the
first applicable failure status. Too few bytes for the magic itself, or a
correct magic with too few bytes for the vendor-length field, is
overflowing_magic_number; a present but mismatching magic is
bad_magic_number; too few bytes for the declared vendor string is
overflowing_vendor_data; too few bytes for the comment-count field is
overflowing_comment_count; then each comment is checked in order, too few
bytes for the length field being overflowing_comment_length and too few for
the declared payload being overflowing_comment_data; and no parse error falls
outside this set, so there is never a generic failure. -/
theorem C2_parse_check_order :
    ∀ data : List Nat,
      (data.length < 8 → parse_tags data = .error .overflowing_magic_number) ∧
      (8 ≤ data.length → data.take 8 ≠ tags_magic →
        parse_tags data = .error .bad_magic_number) ∧
      (data.take 8 = tags_magic → data.length < 12 →
        parse_tags data = .error .overflowing_magic_number) ∧
      (data.take 8 = tags_magic → 12 ≤ data.length →
        data.length < 12 + le32_decode ((data.drop 8).take 4) →
        parse_tags data = .error .overflowing_vendor_data) ∧
      (data.take 8 = tags_magic →
        12 + le32_decode ((data.drop 8).take 4) ≤ data.length →
        data.length < 12 + le32_decode ((data.drop 8).take 4) + 4 →
        parse_tags data = .error .overflowing_comment_count) ∧
      (∀ count rest, rest.length < 4 →
        parse_comments rest (count + 1) = .error .overflowing_comment_length) ∧
      (∀ count rest, 4 ≤ rest.length →
        rest.length < 4 + le32_decode (rest.take 4) →
        parse_comments rest (count + 1) = .error .overflowing_comment_data) ∧
      (data.take 8 = tags_magic →
        12 + le32_decode ((data.drop 8).take 4) + 4 ≤ data.length →
        parse_tags data =
          match parse_comments
              (data.drop (12 + le32_decode ((data.drop 8).take 4) + 4))
              (le32_decode
                ((data.drop (12 + le32_decode ((data.drop 8).take 4))).take 4)) with
          | .error e => .error e
          | .ok (comments, extra) =>
            .ok ⟨(data.drop 12).take (le32_decode ((data.drop 8).take 4)),
              comments, extra⟩) ∧
      (∀ e, parse_tags data = .error e →
        e = .bad_magic_number ∨ e = .overflowing_magic_number
          ∨ e = .overflowing_vendor_data ∨ e = .overflowing_comment_count
          ∨ e = .overflowing_comment_length ∨ e = .overflowing_comment_data) := by
  intro data
  refine ⟨?_, ?_, ?_, ?_, ?_, ?_, ?_, ?_, ?_⟩
  · intro h8
    have hne : ¬ (data.length ≥ 8 ∧ data.take 8 ≠ tags_magic) := fun hh => by omega
    simp only [parse_tags]
    rw [if_neg hne, if_pos (by omega)]
  · intro h8 hmm
    simp only [parse_tags]
    rw [if_pos ⟨h8, hmm⟩]
  · intro hmag h12
    have hne : ¬ (data.length ≥ 8 ∧ data.take 8 ≠ tags_magic) := fun hh => hh.2 hmag
    simp only [parse_tags]
    rw [if_neg hne, if_pos h12]
  · intro hmag h12 hlt
    have hne : ¬ (data.length ≥ 8 ∧ data.take 8 ≠ tags_magic) := fun hh => hh.2 hmag
    simp only [parse_tags]
    rw [if_neg hne, if_neg (by omega), if_pos hlt]
  · intro hmag hge hlt
    have hne : ¬ (data.length ≥ 8 ∧ data.take 8 ≠ tags_magic) := fun hh => hh.2 hmag
    simp only [parse_tags]
    rw [if_neg hne, if_neg (by omega), if_neg (by omega), if_pos hlt]
  · intro count rest h4
    simp only [parse_comments]
    rw [if_pos h4]
  · intro count rest h4 hlt
    simp only [parse_comments]
    rw [if_neg (by omega), if_pos hlt]
  · intro hmag hge
    have hne : ¬ (data.length ≥ 8 ∧ data.take 8 ≠ tags_magic) := fun hh => hh.2 hmag
    simp only [parse_tags]
    rw [if_neg hne, if_neg (by omega), if_neg (by omega), if_neg (by omega)]
  · exact parse_tags_error_cases data

/-- C2 witness: the check-order theorem applied at concrete packets, one per
failure status. -/
theorem C2_parse_check_order_witness :
    parse_tags [0] = .error .overflowing_magic_number ∧
    parse_tags [65, 65, 65, 65, 65, 65, 65, 65, 0, 0, 0, 0]
      = .error .bad_magic_number ∧
    parse_tags (tags_magic ++ [9]) = .error .overflowing_magic_number ∧
    parse_tags (tags_magic ++ [200, 0, 0, 0]) = .error .overflowing_vendor_data ∧
    parse_tags (tags_magic ++ [1, 0, 0, 0, 65])
      = .error .overflowing_comment_count ∧
    parse_comments [1] 1 = .error .overflowing_comment_length ∧
    parse_comments [200, 0, 0, 0] 3 = .error .overflowing_comment_data :=
  ⟨(C2_parse_check_order [0]).1 (by decide),
   (C2_parse_check_order _).2.1 (by decide) (by decide),
   (C2_parse_check_order (tags_magic ++ [9])).2.2.1 (by decide) (by decide),
   (C2_parse_check_order (tags_magic ++ [200, 0, 0, 0])).2.2.2.1 (by decide)
     (by decide) (by decide),
   (C2_parse_check_order (tags_magic ++ [1, 0, 0, 0, 65])).2.2.2.2.1 (by decide)
     (by decide) (by decide),
   (C2_parse_check_order []).2.2.2.2.2.1 0 [1] (by decide),
   (C2_parse_check_order []).2.2.2.2.2.2.1 2 [200, 0, 0, 0] (by decide) (by decide)⟩

theorem comment_matches_iff (c key : List Nat) :
    comment_matches c key = true ↔
      61 ∈ c ∧ (c.takeWhile (fun b => b != 61)).map ascii_upper
        = key.map ascii_upper := by
  simp [comment_matches, comment_key]

/-- The bytes of the string Title=Foo. -/
def title_lower : List Nat := [84, 105, 116, 108, 101, 61, 70, 111, 111]

/-- The bytes of the string TITLE=Bar. -/
def title_upper : List Nat := [84, 73, 84, 76, 69, 61, 66, 97, 114]

/-- The bytes of the string SUBTITLE=x. -/
def subtitle_c : List Nat := [83, 85, 66, 84, 73, 84, 76, 69, 61, 120]

/-- The bytes of the key TITLE. -/
def key_title : List Nat := [84, 73, 84, 76, 69]

/-- The bytes of the key ARTIST. -/
def key_artist : List Nat := [65, 82, 84, 73, 83, 84]

/-- A header holding the three comments of the spec example. -/
def title_header : opus_tags := ⟨[], [title_lower, title_upper, subtitle_c], []⟩

/-- Concrete check of the spec example: deleting TITLE removes Title=Foo and
TITLE=Bar and leaves SUBTITLE=x. -/
theorem delete_tags_title_example :
    delete_tags title_header key_title = ⟨[], [subtitle_c], []⟩ := by decide

/-- C3: delete_tags removes exactly the comments whose substring before the
first equals sign matches the key under ASCII case-insensitive comparison;
comments without an equals sign are never matched; when nothing matches the
header is unchanged; vendor and extra data are untouched. -/
theorem C3_delete_by_key :
    ∀ (t : opus_tags) (key : List Nat),
      (delete_tags t key).vendor = t.vendor ∧
      (delete_tags t key).extra_data = t.extra_data ∧
      (∀ c, c ∈ (delete_tags t key).comments ↔
        (c ∈ t.comments ∧ ¬ (61 ∈ c ∧
          (c.takeWhile (fun b => b != 61)).map ascii_upper
            = key.map ascii_upper))) ∧
      (∀ c ∈ t.comments, 61 ∉ c → comment_matches c key = false) ∧
      ((∀ c ∈ t.comments, comment_matches c key = false) → delete_tags t key = t) := by
  intro t key
  refine ⟨rfl, rfl, ?_, ?_, ?_⟩
  · intro c
    rw [show (delete_tags t key).comments
        = t.comments.filter (fun c => ! comment_matches c key) from rfl,
      List.mem_filter]
    constructor
    · rintro ⟨hm, hb⟩
      refine ⟨hm, fun hmatch => ?_⟩
      rw [← comment_matches_iff] at hmatch
      rw [hmatch] at hb
      exact Bool.noConfusion hb
    · rintro ⟨hm, hnm⟩
      refine ⟨hm, ?_⟩
      rw [← comment_matches_iff] at hnm
      simp [Bool.not_eq_true] at hnm
      rw [hnm]
      rfl
  · intro c _hc h61
    simp [comment_matches, h61]
  · intro hall
    cases t with
    | mk v cs x =>
      simp only [delete_tags]
      rw [opus_tags.mk.injEq]
      refine ⟨rfl, ?_, rfl⟩
      apply List.filter_eq_self.mpr
      intro a ha
      rw [hall a ha]
      rfl

/-- C3 witness: the theorem applied at the spec example, giving that the
unrelated SUBTITLE comment survives, and that a key matching no comment
leaves the header unchanged. -/
theorem C3_delete_by_key_witness :
    subtitle_c ∈ (delete_tags title_header key_title).comments ∧
    delete_tags title_header key_artist = title_header :=
  ⟨((C3_delete_by_key title_header key_title).2.2.1 subtitle_c).mpr
      ⟨by decide, by decide⟩,
   (C3_delete_by_key title_header key_artist).2.2.2.2 (by decide)⟩

theorem apply_edits_extra (es : List tags_edit) :
    ∀ t : opus_tags, (apply_edits t es).extra_data = t.extra_data := by
  induction es with
  | nil => intro t; rfl
  | cons e es ih =>
    intro t
    show (apply_edits (apply_edit t e) es).extra_data = t.extra_data
    rw [ih (apply_edit t e)]
    cases e <;> rfl

theorem render_tags_extra_suffix (u : opus_tags) (bs : List Nat)
    (h : render_tags u = .ok bs) : ∃ p, bs = p ++ u.extra_data := by
  simp only [render_tags] at h
  split at h
  · exact Except.noConfusion h
  · injection h with h2
    exact ⟨_, h2.symm⟩

/-- A small header with nonempty extra data, and one edit, to instantiate
the preservation theorem. -/
def c4_header : opus_tags := ⟨[118], [], [7, 8]⟩

/-- One add edit: append the comment A=B. -/
def c4_edits : List tags_edit := [.add [65, 61, 66]]

/-- The bytes render_tags yields for c4_header after c4_edits. -/
def c4_bytes : List Nat :=
  [79, 112, 117, 115, 84, 97, 103, 115, 1, 0, 0, 0, 118, 1, 0, 0, 0,
   3, 0, 0, 0, 65, 61, 66, 7, 8]

/-- C4: every sequence of add or delete edits leaves the extra data of the
original header untouched, and whenever render_tags succeeds on the edited
header its output ends, byte for byte, with the original extra data, which
render appends unconditionally after the encoded comments. -/
theorem C4_extra_data_preserved :
    ∀ (t : opus_tags) (es : List tags_edit),
      (apply_edits t es).extra_data = t.extra_data ∧
      ∀ bs, render_tags (apply_edits t es) = .ok bs →
        ∃ p, bs = p ++ t.extra_data := by
  intro t es
  refine ⟨apply_edits_extra es t, ?_⟩
  intro bs h
  obtain ⟨p, hp⟩ := render_tags_extra_suffix _ bs h
  rw [apply_edits_extra es t] at hp
  exact ⟨p, hp⟩

/-- C4 witness: the preservation theorem applied to a concrete header and
edit, with the rendered bytes computed explicitly. -/
theorem C4_extra_data_preserved_witness :
    ∃ p, c4_bytes = p ++ c4_header.extra_data :=
  (C4_extra_data_preserved c4_header c4_edits).2 c4_bytes (by rfl)

/-- C5: render_tags fails with int_overflow exactly when the vendor length,
the comment count, some comment length, or the total encoded size exceeds the
unsigned 32-bit range; int_overflow is the only failure render_tags can
report; and within the bounds it produces output, so failing aborts before
any output exists. -/
theorem C5_render_int_overflow :
    ∀ t : opus_tags,
      (render_tags t = .error .int_overflow ↔
        (t.vendor.length > u32max ∨ t.comments.length > u32max
          ∨ (∃ c ∈ t.comments, c.length > u32max) ∨ encoded_size t > u32max)) ∧
      (∀ e, render_tags t = .error e → e = .int_overflow) ∧
      ((¬ (t.vendor.length > u32max ∨ t.comments.length > u32max
          ∨ (∃ c ∈ t.comments, c.length > u32max) ∨ encoded_size t > u32max)) →
        ∃ bs, render_tags t = .ok bs) := by
  intro t
  by_cases hcond : t.vendor.length > u32max ∨ t.comments.length > u32max
      ∨ (∃ c ∈ t.comments, c.length > u32max) ∨ encoded_size t > u32max
  · have hr : render_tags t = .error .int_overflow := by
      simp only [render_tags]
      rw [if_pos hcond]
    refine ⟨⟨fun _ => hcond, fun _ => hr⟩, ?_, fun hn => absurd hcond hn⟩
    intro e he
    rw [hr] at he
    injection he with h2
    exact h2.symm
  · have hr : render_tags t
        = .ok (tags_magic ++ le32_encode t.vendor.length ++ t.vendor
          ++ le32_encode t.comments.length ++ render_comments t.comments
          ++ t.extra_data) := by
      simp only [render_tags]
      rw [if_neg hcond]
    refine ⟨⟨fun h => ?_, fun h => absurd h hcond⟩, ?_, fun _ => ⟨_, hr⟩⟩
    · rw [hr] at h
      exact Except.noConfusion h
    · intro e he
      rw [hr] at he
      exact Except.noConfusion he

/-- C5 witness: the characterization applied to a small in-bounds header,
showing render_tags produces output for it. -/
theorem C5_render_int_overflow_witness :
    ∃ bs, render_tags ex_header = .ok bs :=
  (C5_render_int_overflow ex_header).2.2 (by decide)

/-- C6: writing two header packets through the writer, each on its own page
with serial 1234, and reading them back yields, in order, a first packet
byte-identical to the first original, a second packet byte-identical to the
second original, and end_of_file on the next page read, with no phantom
third packet. The byte-identity checks are phrased through the inspection
step, as in the memory test of t/ogg.cc. -/
theorem C6_write_read_roundtrip :
    ∀ p1 p2 : List Nat,
      (read_page ⟨write_header_packet (write_header_packet [] 1234 0 p1) 1234 1 p2,
        none⟩).1 = .ok ∧
      read_header_packet
        (read_page ⟨write_header_packet (write_header_packet [] 1234 0 p1) 1234 1 p2,
          none⟩).2
        (fun q => if q = p1 then .ok else .libogg_error) = .ok ∧
      (read_page (read_page ⟨write_header_packet (write_header_packet [] 1234 0 p1)
        1234 1 p2, none⟩).2).1 = .ok ∧
      read_header_packet
        (read_page (read_page ⟨write_header_packet (write_header_packet [] 1234 0 p1)
          1234 1 p2, none⟩).2).2
        (fun q => if q = p2 then .ok else .libogg_error) = .ok ∧
      (read_page (read_page (read_page ⟨write_header_packet
        (write_header_packet [] 1234 0 p1) 1234 1 p2, none⟩).2).2).1
        = .end_of_file := by
  intro p1 p2
  simp [write_header_packet, read_page, read_header_packet]

/-- Modelled from the spec: the 19-byte identification-header packet of the
reference stream (magic OpusHead then version, channel count, pre-skip,
input sample rate, output gain and channel mapping family at their fixed
positions; the file gobble.opus itself is not among the given sources). -/
def ref_id_packet : List Nat :=
  head_magic ++ [1, 2, 56, 1, 128, 187, 0, 0, 0, 0, 0]

/-- Modelled from the spec: the comment-header packet of the reference
stream, an OpusTags packet with empty vendor string and no comments. -/
def ref_tags_packet : List Nat := tags_magic ++ [0, 0, 0, 0] ++ [0, 0, 0, 0]

/-- Modelled from the spec: the known two-header reference stream as a page
sequence: the identification page, the comment page, and a final audio page
flagged end-of-stream. -/
def ref_stream : List ogg_page_m :=
  [⟨4096, 0, false, [ref_id_packet]⟩,
   ⟨4096, 1, false, [ref_tags_packet]⟩,
   ⟨4096, 2, true, [[1, 2, 3]]⟩]

/-- C7: reading the reference stream yields an identification-header packet
of exactly 19 bytes as the single packet of the first page (checked through
the inspection step as in t/ogg.cc), and read_page reports end_of_file
exactly when the source is exhausted: every page of the stream reads with
ok, and only the read after the last page reports end_of_file. -/
theorem C7_reference_stream :
    ref_id_packet.length = 19 ∧
    validate_identification_header ref_id_packet = .ok ∧
    (read_page ⟨ref_stream, none⟩).1 = .ok ∧
    read_header_packet (read_page ⟨ref_stream, none⟩).2
      (fun p => if p.length = 19 then .ok else .bad_identification_header) = .ok ∧
    (∀ r : ogg_reader_m, (read_page r).1 = .end_of_file ↔ r.pages = []) ∧
    (read_page (read_page ⟨ref_stream, none⟩).2).1 = .ok ∧
    (read_page (read_page (read_page ⟨ref_stream, none⟩).2).2).1 = .ok ∧
    (read_page (read_page (read_page (read_page ⟨ref_stream, none⟩).2).2).2).1
      = .end_of_file := by
  refine ⟨by decide, by decide, by decide, by decide, ?_, by decide, by decide,
    by decide⟩
  intro r
  obtain ⟨pages, page⟩ := r
  cases pages <;> simp [read_page]

/-- C8 counterexample: the claim that every core operation reports its
outcome as a value of the status enumeration is false for the declared
interface: src/opustags.h declares render_tags (line 208) and write_page
(line 159) to return a plain int, and delete_tags (line 209) to return
void. -/
theorem C8_status_return_counterexample :
    declared_return .render_tags_op = .int_ret ∧
    declared_return .write_page_op = .int_ret ∧
    declared_return .delete_tags_op = .void_ret ∧
    ¬ ∀ op : core_op, declared_return op = .status_ret := by
  refine ⟨rfl, rfl, rfl, fun h => ?_⟩
  exact ret_kind.noConfusion (h .render_tags_op)

/-- C8 (amended): read_page, read_header_packet, write_header_packet,
parse_tags and validate_identification_header report their outcome as a
value of the closed status enumeration, whose members are exactly the
sixteen declared codes; render_tags and write_page are declared to return a
plain int and delete_tags void; and every error status the modelled parse
and render can produce lies inside the enumeration, so no failure is
signalled by any other mechanism. -/
theorem C8_status_reporting :
    declared_return .read_page_op = .status_ret ∧
    declared_return .read_header_packet_op = .status_ret ∧
    declared_return .write_header_packet_op = .status_ret ∧
    declared_return .parse_tags_op = .status_ret ∧
    declared_return .validate_identification_op = .status_ret ∧
    declared_return .render_tags_op = .int_ret ∧
    declared_return .write_page_op = .int_ret ∧
    declared_return .delete_tags_op = .void_ret ∧
    (∀ s : status, s ∈ status_values) ∧
    (∀ data e, parse_tags data = .error e → e ∈ status_values) ∧
    (∀ t e, render_tags t = .error e → e ∈ status_values) := by
  have hall : ∀ s : status, s ∈ status_values := by
    intro s
    cases s <;> simp [status_values]
  exact ⟨rfl, rfl, rfl, rfl, rfl, rfl, rfl, rfl, hall,
    fun data e _ => hall e, fun t e _ => hall e⟩

/-- C8 witness: the amended theorem applied at a concrete failing parse. -/
theorem C8_status_reporting_witness :
    status.overflowing_magic_number ∈ status_values :=
  C8_status_reporting.2.2.2.2.2.2.2.2.2.1 [0] .overflowing_magic_number (by rfl)

/-- A concrete reader exposing one page that carries one packet. -/
def c9_reader : ogg_reader_m := ⟨[], some ⟨1, 0, false, [[5]]⟩⟩

/-- C9: read_header_packet returns exactly the status value the inspection
step returns on the extracted packet, and libogg_error when no packet can be
extracted, either because no current page is exposed or because the current
page carries no packet. -/
theorem C9_read_header_packet_propagates :
    ∀ (r : ogg_reader_m) (inspector : List Nat → status),
      (∀ pg pkt rest, r.page = some pg → pg.packets = pkt :: rest →
        read_header_packet r inspector = inspector pkt) ∧
      (r.page = none → read_header_packet r inspector = .libogg_error) ∧
      (∀ pg, r.page = some pg → pg.packets = [] →
        read_header_packet r inspector = .libogg_error) := by
  intro r inspector
  refine ⟨?_, ?_, ?_⟩
  · intro pg pkt rest hpg hpk
    simp [read_header_packet, hpg, hpk]
  · intro hpg
    simp [read_header_packet, hpg]
  · intro pg hpg hpk
    simp [read_header_packet, hpg, hpk]

/-- C9 witness: the propagation theorem applied to a concrete reader and a
constant inspection step. -/
theorem C9_read_header_packet_propagates_witness :
    read_header_packet c9_reader (fun _ => .bad_arguments) = .bad_arguments :=
  (C9_read_header_packet_propagates c9_reader (fun _ => .bad_arguments)).1
    ⟨1, 0, false, [[5]]⟩ [5] [] rfl rfl

end ot
